import Mathlib

/-
  Verification of the GamerLingo translation orchestrator and caching layer.

  The definitions below are shallow embeddings of the TypeScript sources:
    - src/unnamed/part_002  (cacheService: translation / reverse / TTS caches)
    - src/unnamed/part_003  (geminiService: retryOperation, translateTextStream,
                             decodeAudioData, getReverseTranslation, ...)
    - src/components/TranslationBox.tsx (handleTranslate orchestrator)
    - src/unnamed/part_004  (InputArea: handleSwap)
    - src/App.tsx           (history handling)

  JavaScript machine-level details that matter are modelled explicitly:
  Map iteration order is insertion order (assoc lists), object spread copies
  explicitly-present-but-undefined properties (Option (Option _) for optional
  TS fields), and string truthiness is "nonempty".
-/

set_option maxHeartbeats 1000000

namespace GamerLingo

/-- `startsWithChars pat s` is true when `pat` is an initial segment of `s`. -/
def startsWithChars : List Char → List Char → Bool
  | [], _ => true
  | _ :: _, [] => false
  | p :: ps, c :: cs => p == c && startsWithChars ps cs

/-- `occursInChars pat s` is true when `pat` occurs contiguously in `s`. -/
def occursInChars (pat : List Char) : List Char → Bool
  | [] => startsWithChars pat []
  | c :: cs => startsWithChars pat (c :: cs) || occursInChars pat cs

/-- True when `pat` occurs as a substring of `s`; model of JS `String.includes`. -/
def containsSubstr (s pat : String) : Bool :=
  occursInChars pat.toList s.toList

/-- ASCII lowercasing of one character (model of JS `toLowerCase` on the
ASCII range, which is all the markers need). -/
def toLowerChar (c : Char) : Char :=
  if 65 ≤ c.toNat ∧ c.toNat ≤ 90 then Char.ofNat (c.toNat + 32) else c

/-- ASCII lowercasing of a string. -/
def toLowerStr (s : String) : String :=
  String.mk (s.toList.map toLowerChar)

/-- Quota detection used by `retryOperation` (part_003 lines 21-24): the
lowercased error text contains one of the markers '429', 'quota' or
'resource exhausted'. -/
def isQuotaError (e : String) : Bool :=
  containsSubstr (toLowerStr e) "429" || containsSubstr (toLowerStr e) "quota" ||
    containsSubstr (toLowerStr e) "resource exhausted"

/-- The distinguished error surfaced when quota retries are exhausted
(part_003 line 26). -/
def quotaExhaustedMessage : String := "API Quota Exceeded. Please try again in a minute."

/-- Shallow embedding of `retryOperation` (part_003 lines 17-37).
`op n` is the outcome of the n-th invocation of the wrapped operation
(`Except.error e` models a rejection whose `toString` is `e`).  The result
pairs the final outcome with the list of backoff waits performed, in order.
On a quota-marked failure the code waits `delay * 3` and recurses with
`delay * 3`; on any other failure it waits `delay` and recurses with
`delay * 2`; `retries <= 0` rethrows (the distinguished message in the quota
branch, the original error otherwise). -/
def retryOperation {α : Type} (op : Nat → Except String α) (attempt retries delay : Nat) :
    Except String α × List Nat :=
  match op attempt with
  | Except.ok v => (Except.ok v, [])
  | Except.error e =>
    if isQuotaError e then
      match retries with
      | 0 => (Except.error quotaExhaustedMessage, [])
      | r + 1 =>
        let rest := retryOperation op (attempt + 1) r (delay * 3)
        (rest.1, delay * 3 :: rest.2)
    else
      match retries with
      | 0 => (Except.error e, [])
      | r + 1 =>
        let rest := retryOperation op (attempt + 1) r (delay * 2)
        (rest.1, delay :: rest.2)

/-- The number of backoff waits (hence of retries) never exceeds the retry
budget. -/
lemma retryOperation_waits_le {α : Type} (op : Nat → Except String α) :
    ∀ (retries attempt delay : Nat), (retryOperation op attempt retries delay).2.length ≤ retries := by
  intro retries
  induction retries with
  | zero =>
    intro attempt delay
    rw [retryOperation]
    cases op attempt with
    | ok v => simp
    | error e =>
      by_cases h : isQuotaError e <;> simp [h]
  | succ r ih =>
    intro attempt delay
    rw [retryOperation]
    cases op attempt with
    | ok v => simp
    | error e =>
      by_cases h : isQuotaError e <;> simp [h] <;> exact ih _ _

/-- One step of the retry loop on a non-quota failure: wait the base delay
and recurse with the delay doubled. -/
lemma retryOperation_step_other {α : Type} {op : Nat → Except String α} {a : Nat}
    {e : String} (hop : op a = Except.error e) (hq : isQuotaError e = false)
    (r d : Nat) :
    retryOperation op a (r + 1) d =
      ((retryOperation op (a + 1) r (d * 2)).1,
        d :: (retryOperation op (a + 1) r (d * 2)).2) := by
  rw [retryOperation, hop]
  simp [hq]

/-- One step of the retry loop on a quota-marked failure: wait three times
the delay and recurse with the delay tripled. -/
lemma retryOperation_step_quota {α : Type} {op : Nat → Except String α} {a : Nat}
    {e : String} (hop : op a = Except.error e) (hq : isQuotaError e = true)
    (r d : Nat) :
    retryOperation op a (r + 1) d =
      ((retryOperation op (a + 1) r (d * 3)).1,
        d * 3 :: (retryOperation op (a + 1) r (d * 3)).2) := by
  rw [retryOperation, hop]
  simp [hq]

/-- Exhausted retries on a quota-marked failure surface the distinguished
quota message. -/
lemma retryOperation_exhaust_quota {α : Type} {op : Nat → Except String α} {a : Nat}
    {e : String} (hop : op a = Except.error e) (hq : isQuotaError e = true)
    (d : Nat) :
    retryOperation op a 0 d = (Except.error quotaExhaustedMessage, []) := by
  rw [retryOperation, hop]
  simp [hq]

/-- Exhausted retries on any other failure rethrow the original error. -/
lemma retryOperation_exhaust_other {α : Type} {op : Nat → Except String α} {a : Nat}
    {e : String} (hop : op a = Except.error e) (hq : isQuotaError e = false)
    (d : Nat) :
    retryOperation op a 0 d = (Except.error e, []) := by
  rw [retryOperation, hop]
  simp [hq]

/-- C4: a backend operation wrapped in the retry policy is retried at most
2 times by default; a non-quota failure waits the base delay and recurses
with the delay doubled; a quota-marked failure waits 3x the delay and
recurses with the delay tripled; exhausted quota retries surface the
distinguished quota message; any other exhausted failure is rethrown
unchanged.  With the default budget of 2, all-failing non-quota runs wait
[d, 2d] and rethrow the last error, and all-failing quota runs wait
[3d, 9d] and surface the quota message. -/
theorem retryOperation_policy {α : Type} (op : Nat → Except String α)
    (a d r : Nat) (e : String) (es : Nat → String) :
    ((retryOperation op a 2 d).2.length ≤ 2) ∧
    (op a = Except.error e → isQuotaError e = false →
      retryOperation op a (r + 1) d =
        ((retryOperation op (a + 1) r (d * 2)).1,
          d :: (retryOperation op (a + 1) r (d * 2)).2)) ∧
    (op a = Except.error e → isQuotaError e = true →
      retryOperation op a (r + 1) d =
        ((retryOperation op (a + 1) r (d * 3)).1,
          d * 3 :: (retryOperation op (a + 1) r (d * 3)).2)) ∧
    (op a = Except.error e → isQuotaError e = true →
      retryOperation op a 0 d = (Except.error quotaExhaustedMessage, [])) ∧
    (op a = Except.error e → isQuotaError e = false →
      retryOperation op a 0 d = (Except.error e, [])) ∧
    ((∀ i, op i = Except.error (es i)) → (∀ i, isQuotaError (es i) = false) →
      retryOperation op 0 2 d = (Except.error (es 2), [d, d * 2])) ∧
    ((∀ i, op i = Except.error (es i)) → (∀ i, isQuotaError (es i) = true) →
      retryOperation op 0 2 d = (Except.error quotaExhaustedMessage, [d * 3, d * 3 * 3])) := by
  refine ⟨retryOperation_waits_le op 2 a d, ?_, ?_, ?_, ?_, ?_, ?_⟩
  · intro hop hq
    exact retryOperation_step_other hop hq r d
  · intro hop hq
    exact retryOperation_step_quota hop hq r d
  · intro hop hq
    exact retryOperation_exhaust_quota hop hq d
  · intro hop hq
    exact retryOperation_exhaust_other hop hq d
  · intro hop hq
    rw [retryOperation_step_other (hop 0) (hq 0) 1 d,
      retryOperation_step_other (hop 1) (hq 1) 0 (d * 2),
      retryOperation_exhaust_other (hop 2) (hq 2) (d * 2 * 2)]
  · intro hop hq
    rw [retryOperation_step_quota (hop 0) (hq 0) 1 d,
      retryOperation_step_quota (hop 1) (hq 1) 0 (d * 3),
      retryOperation_exhaust_quota (hop 2) (hq 2) (d * 3 * 3)]

/-- Witness for C4 at concrete inputs: two failing runs, one non-quota and
one quota-marked. -/
theorem retryOperation_policy_witness :
    retryOperation (fun _ => (Except.error "network down" : Except String Nat)) 0 2 1000 =
      (Except.error "network down", [1000, 2000]) ∧
    retryOperation (fun _ => (Except.error "HTTP 429" : Except String Nat)) 0 2 1000 =
      (Except.error quotaExhaustedMessage, [3000, 9000]) := by
  constructor
  · exact (retryOperation_policy (fun _ => (Except.error "network down" : Except String Nat))
      0 1000 0 "x" (fun _ => "network down")).2.2.2.2.2.1 (fun _ => rfl) (fun _ => by decide)
  · exact (retryOperation_policy (fun _ => (Except.error "HTTP 429" : Except String Nat))
      0 1000 0 "x" (fun _ => "HTTP 429")).2.2.2.2.2.2 (fun _ => rfl) (fun _ => by decide)

/-- The terminal notice fragment yielded by the streaming operation when it
detects a quota error mid-stream (part_003 line 189). -/
def quotaNoticeFragment : String := " [System: API Quota Exceeded. Please slow down.]"

/-- Quota detection in the catch handler of `translateTextStream`
(part_003 line 188): unlike `isQuotaError`, only '429' and 'quota' are
checked - 'resource exhausted' is not. -/
def isStreamQuotaError (e : String) : Bool :=
  containsSubstr (toLowerStr e) "429" || containsSubstr (toLowerStr e) "quota"

/-- Shallow embedding of the streaming outcome of `translateTextStream`
(part_003 lines 171-194).  `chunks` are the fragments yielded before the
stream either ends (`streamFailure = none`) or throws with error text `e`.
The result pairs the fragments delivered to the consumer with the error
propagated to it, if any. -/
def translateTextStream (chunks : List String) (streamFailure : Option String) :
    List String × Option String :=
  match streamFailure with
  | none => (chunks, none)
  | some e =>
    if isStreamQuotaError e then (chunks ++ [quotaNoticeFragment], none)
    else (chunks, some e)

/-- C5 counterexample: 'resource exhausted' is one of the quota markers of
the backend client's quota detection (`isQuotaError`), but the streaming
operation's catch handler does not check it, so a mid-stream error carrying
only that marker is propagated to the consumer instead of being converted
into the terminal notice fragment. -/
theorem translateTextStream_counterexample :
    isQuotaError "Resource exhausted" = true ∧
    isStreamQuotaError "Resource exhausted" = false ∧
    translateTextStream ["frag"] (some "Resource exhausted") =
      (["frag"], some "Resource exhausted") := by
  refine ⟨by decide, by decide, by decide⟩

/-- C5 (amended): when a mid-stream error's text contains '429' or 'quota'
(the markers the stream handler actually checks), the stream yields exactly
one terminal notice fragment and ends normally; any other error - including
one carrying only the 'resource exhausted' marker - is propagated to the
consumer; an error-free stream just delivers its fragments. -/
theorem translateTextStream_quota_amended (chunks : List String) (e : String) :
    (isStreamQuotaError e = true →
      translateTextStream chunks (some e) = (chunks ++ [quotaNoticeFragment], none)) ∧
    (isStreamQuotaError e = false →
      translateTextStream chunks (some e) = (chunks, some e)) ∧
    translateTextStream chunks none = (chunks, none) := by
  refine ⟨fun h => ?_, fun h => ?_, rfl⟩
  · simp [translateTextStream, h]
  · simp [translateTextStream, h]

/-- Witness for C5 (amended) at concrete inputs. -/
theorem translateTextStream_quota_amended_witness :
    translateTextStream ["gg"] (some "HTTP 429") = (["gg"] ++ [quotaNoticeFragment], none) ∧
    translateTextStream ["gg"] (some "socket closed") = (["gg"], some "socket closed") := by
  constructor
  · exact (translateTextStream_quota_amended ["gg"] "HTTP 429").1 (by decide)
  · exact (translateTextStream_quota_amended ["gg"] "socket closed").2.1 (by decide)

/-- ASCII whitespace, the characters removed by the `replace(/\s/g, '')`
cleanup in `decodeAudioData` (part_003 line 60) and by the forgiving-base64
preprocessing of `atob`. -/
def isJsWhitespace (c : Char) : Bool :=
  c == ' ' || c == '\t' || c == '\n' || c == '\r' || c == '\x0b' || c == '\x0c'

/-- The whitespace-removal step `base64Data.replace(/\s/g, '')`. -/
def stripWs (s : String) : String :=
  String.mk (s.toList.filter (fun c => !(isJsWhitespace c)))

/-- Value of one character of the base64 alphabet, `none` for a character
outside the alphabet (which makes `atob` throw). -/
def base64CharVal (c : Char) : Option Nat :=
  if 65 ≤ c.toNat ∧ c.toNat ≤ 90 then some (c.toNat - 65)
  else if 97 ≤ c.toNat ∧ c.toNat ≤ 122 then some (c.toNat - 97 + 26)
  else if 48 ≤ c.toNat ∧ c.toNat ≤ 57 then some (c.toNat - 48 + 52)
  else if c == '+' then some 62
  else if c == '/' then some 63
  else none

/-- Strip up to two trailing '=' padding characters. -/
def stripPad (cs : List Char) : List Char :=
  match cs.reverse with
  | '=' :: '=' :: rest => rest.reverse
  | '=' :: rest => rest.reverse
  | _ => cs

/-- Map every character to its base64 value, failing on the first character
outside the alphabet. -/
def mapCharVals : List Char → Option (List Nat)
  | [] => some []
  | c :: cs =>
    match base64CharVal c, mapCharVals cs with
    | some v, some vs => some (v :: vs)
    | _, _ => none

/-- Reassemble 6-bit values into bytes: four values give three bytes, a
leftover of two gives one byte and a leftover of three gives two. -/
def decodeGroups : List Nat → List Nat
  | a :: b :: c :: d :: rest =>
    (a * 4 + b / 16) :: ((b % 16) * 16 + c / 4) :: ((c % 4) * 64 + d) :: decodeGroups rest
  | [a, b] => [a * 4 + b / 16]
  | [a, b, c] => [a * 4 + b / 16, (b % 16) * 16 + c / 4]
  | _ => []

/-- Model of the browser's `atob` (forgiving-base64 decode): strip ASCII
whitespace, strip permissible '=' padding, reject a length congruent to 1
mod 4 and any character outside the alphabet, and decode the rest to bytes.
`none` models the `InvalidCharacterError` throw. -/
def atob (s : String) : Option (List Nat) :=
  let cs0 := s.toList.filter (fun c => !(isJsWhitespace c))
  let cs := if cs0.length % 4 = 0 then stripPad cs0 else cs0
  if cs.length % 4 = 1 then none
  else
    match mapCharVals cs with
    | some vals => some (decodeGroups vals)
    | none => none

/-- Little-endian signed 16-bit sample from two bytes (the `Int16Array`
view over the byte buffer in part_003 line 72). -/
def toInt16 (lo hi : Nat) : Int :=
  if lo + 256 * hi < 32768 then ((lo + 256 * hi : Nat) : Int)
  else ((lo + 256 * hi : Nat) : Int) - 65536

/-- Consecutive byte pairs to 16-bit samples; a trailing unpaired byte is
dropped (an `Int16Array` over an even-length prefix). -/
def pcm16OfBytes : List Nat → List Int
  | [] => []
  | [_] => []
  | lo :: hi :: rest => toInt16 lo hi :: pcm16OfBytes rest

lemma pcm16OfBytes_length : ∀ l : List Nat, (pcm16OfBytes l).length = l.length / 2
  | [] => by simp [pcm16OfBytes]
  | [_] => by simp [pcm16OfBytes]
  | lo :: hi :: rest => by
    have ih := pcm16OfBytes_length rest
    simp [pcm16OfBytes, ih]
    omega

/-- A decoded audio buffer: channel count, sample rate, and the samples as
the integer numerators of `sample / 32768` (the code divides each 16-bit
sample by 32768.0; keeping the numerator avoids floating point while
preserving all information). -/
structure AudioBuffer where
  numChannels : Nat
  sampleRate : Nat
  samples : List Int
deriving DecidableEq, Repr

/-- The 1-second silent fallback buffer `audioContext.createBuffer(1, 24000,
24000)` (part_003 line 87): mono, 24kHz, 24000 zero samples. -/
def silentBuffer : AudioBuffer :=
  { numChannels := 1, sampleRate := 24000, samples := List.replicate 24000 0 }

/-- The byte count kept by the alignment step `len % 2 === 0 ? len : len - 1`
(part_003 line 65). -/
def alignedLenOf (n : Nat) : Nat :=
  if n % 2 = 0 then n else n - 1

/-- Continuation of `decodeAudioData` after the `atob` call: `none` is the
`atob` throw (caught, silence); otherwise the length checks and the
`Int16Array` alignment of part_003 lines 63-83. -/
def decodeAudioBytes : Option (List Nat) → AudioBuffer
  | none => silentBuffer
  | some bytes =>
    if bytes.length = 0 then silentBuffer
    else
      if (pcm16OfBytes (bytes.take (alignedLenOf bytes.length))).length = 0 then silentBuffer
      else
        { numChannels := 1, sampleRate := 24000,
          samples := pcm16OfBytes (bytes.take (alignedLenOf bytes.length)) }

/-- Shallow embedding of `decodeAudioData` (part_003 lines 55-89).  Every
throw inside the `try` block (empty input, `atob` failure, zero decoded
bytes, no complete 16-bit sample) is caught and replaced by the silent
buffer, so the function is total. -/
def decodeAudioData (base64Data : String) : AudioBuffer :=
  if base64Data = "" then silentBuffer
  else decodeAudioBytes (atob (stripWs base64Data))

lemma decodeAudioBytes_none : decodeAudioBytes none = silentBuffer := rfl

lemma decodeAudioBytes_some (bytes : List Nat) :
    decodeAudioBytes (some bytes) =
      if bytes.length = 0 then silentBuffer
      else
        if (pcm16OfBytes (bytes.take (alignedLenOf bytes.length))).length = 0 then silentBuffer
        else
          { numChannels := 1, sampleRate := 24000,
            samples := pcm16OfBytes (bytes.take (alignedLenOf bytes.length)) } := rfl

/-- Every buffer `decodeAudioBytes` returns is mono at 24kHz. -/
lemma decodeAudioBytes_shape (x : Option (List Nat)) :
    (decodeAudioBytes x).numChannels = 1 ∧ (decodeAudioBytes x).sampleRate = 24000 := by
  cases x with
  | none => exact ⟨rfl, rfl⟩
  | some bytes =>
    rw [decodeAudioBytes_some]
    by_cases h0 : bytes.length = 0
    · rw [if_pos h0]
      exact ⟨rfl, rfl⟩
    · rw [if_neg h0]
      by_cases h1 : (pcm16OfBytes (bytes.take (alignedLenOf bytes.length))).length = 0
      · rw [if_pos h1]
        exact ⟨rfl, rfl⟩
      · rw [if_neg h1]
        exact ⟨rfl, rfl⟩

/-- C6 counterexample: "AAAA" decodes to the three zero bytes, an odd-length
byte sequence that cannot fully align to 16-bit samples.  The claim says such
input yields the 1-second silence buffer (24000 samples); the code instead
drops the trailing byte and returns the one decoded sample. -/
theorem decodeAudioData_counterexample :
    atob (stripWs "AAAA") = some [0, 0, 0] ∧
    decodeAudioData "AAAA" = { numChannels := 1, sampleRate := 24000, samples := [0] } ∧
    (decodeAudioData "AAAA").samples.length = 1 ∧
    silentBuffer.samples.length = 24000 ∧
    (1 : Nat) ≠ 24000 := by
  refine ⟨by decide, by decide, by decide, List.length_replicate 24000 0, by decide⟩

/-- C6 (amended): `decodeAudioData` is total and always returns a 24kHz mono
buffer; an empty string, non-base64 garbage, and a byte sequence with no
complete 16-bit sample (zero or one byte) each return the 1-second silence
buffer; an odd-length byte sequence of three or more bytes does not raise
but is truncated to the largest even length and decoded normally rather
than replaced by silence. -/
theorem decodeAudioData_amended (s : String) (bytes : List Nat) :
    ((decodeAudioData s).numChannels = 1 ∧ (decodeAudioData s).sampleRate = 24000) ∧
    decodeAudioData "" = silentBuffer ∧
    (s ≠ "" → atob (stripWs s) = none → decodeAudioData s = silentBuffer) ∧
    (s ≠ "" → atob (stripWs s) = some bytes → bytes.length ≤ 1 →
      decodeAudioData s = silentBuffer) ∧
    (s ≠ "" → atob (stripWs s) = some bytes → bytes.length % 2 = 1 → 3 ≤ bytes.length →
      decodeAudioData s =
        { numChannels := 1, sampleRate := 24000,
          samples := pcm16OfBytes (bytes.take (bytes.length - 1)) } ∧
      (decodeAudioData s).samples.length = (bytes.length - 1) / 2) := by
  refine ⟨?_, rfl, ?_, ?_, ?_⟩
  · unfold decodeAudioData
    split
    · exact ⟨rfl, rfl⟩
    · exact decodeAudioBytes_shape _
  · intro hs hatob
    unfold decodeAudioData
    rw [if_neg hs, hatob, decodeAudioBytes_none]
  · intro hs hatob hle
    unfold decodeAudioData
    rw [if_neg hs, hatob, decodeAudioBytes_some]
    rcases Nat.le_one_iff_eq_zero_or_eq_one.mp hle with h0 | h1
    · rw [if_pos h0]
    · have htake : bytes.take (alignedLenOf bytes.length) = [] := by
        simp [alignedLenOf, h1]
      rw [if_neg (by omega : ¬ bytes.length = 0), htake]
      simp [pcm16OfBytes]
  · intro hs hatob hodd h3
    have halign : alignedLenOf bytes.length = bytes.length - 1 := by
      unfold alignedLenOf
      rw [if_neg (by omega : ¬ bytes.length % 2 = 0)]
    have htakelen : (bytes.take (bytes.length - 1)).length = bytes.length - 1 := by
      rw [List.length_take]
      omega
    have hpcmlen : (pcm16OfBytes (bytes.take (bytes.length - 1))).length = (bytes.length - 1) / 2 := by
      rw [pcm16OfBytes_length, htakelen]
    have hpcmne : ¬ (pcm16OfBytes (bytes.take (bytes.length - 1))).length = 0 := by
      rw [hpcmlen]
      omega
    have heq : decodeAudioData s =
        { numChannels := 1, sampleRate := 24000,
          samples := pcm16OfBytes (bytes.take (bytes.length - 1)) } := by
      unfold decodeAudioData
      rw [if_neg hs, hatob, decodeAudioBytes_some, halign,
        if_neg (by omega : ¬ bytes.length = 0), if_neg hpcmne]
    exact ⟨heq, by rw [heq, hpcmlen]⟩

/-- Witness for C6 (amended) at concrete inputs: empty string, non-base64
garbage, a single decoded byte, and a three-byte odd-length decode. -/
theorem decodeAudioData_amended_witness :
    decodeAudioData "" = silentBuffer ∧
    decodeAudioData "!!!!" = silentBuffer ∧
    decodeAudioData "AA==" = silentBuffer ∧
    (decodeAudioData "AAAA").samples.length = (([0, 0, 0] : List Nat).length - 1) / 2 := by
  refine ⟨(decodeAudioData_amended "x" []).2.1, ?_, ?_, ?_⟩
  · exact (decodeAudioData_amended "!!!!" []).2.2.1 (by decide) (by decide)
  · exact (decodeAudioData_amended "AA==" [0]).2.2.2.1 (by decide) (by decide) (by decide)
  · exact ((decodeAudioData_amended "AAAA" [0, 0, 0]).2.2.2.2 (by decide) (by decide)
      (by decide) (by decide)).2

/-- JS `String.trim`: whitespace removed from both ends. -/
def jsTrim (s : String) : String :=
  String.mk (((s.toList.dropWhile isJsWhitespace).reverse.dropWhile isJsWhitespace).reverse)

/-- The cached translation payload, TS type `TranslationResultPartial`
(part_001 lines 14-19).  `slang`, `visual_description` and `tags` are
required properties; `audioData` is optional, and a TS optional property has
three observable states, encoded as `Option (Option String)`:
`none` = property absent, `some none` = property present with value
`undefined`, `some (some s)` = property present with a string value.  The
distinction matters because JS object spread copies a present-but-undefined
property over an existing value. -/
structure TranslationResultData where
  slang : String
  visual_description : String
  tags : List String
  audioData : Option (Option String)
deriving DecidableEq, Repr

/-- JS truthiness of the optional `audioData` property: present, defined and
nonempty. -/
def audioTruthy : Option (Option String) → Bool
  | some (some s) => s != ""
  | _ => false

/-- Collapse the three-state optional property to the value stored in a
`TranslationRecord.audioData` field (absent and undefined are both
`undefined`). -/
def flattenAudio : Option (Option String) → Option String
  | some v => v
  | none => none

/-- One entry of the text-translation cache (part_002 lines 53-56). -/
structure CacheEntry where
  data : TranslationResultData
  timestamp : Nat
deriving DecidableEq, Repr

/-- A JS `Map` is modelled as an association list in insertion order (JS
`Map` iteration order is insertion order). -/
abbrev TCache := List (String × CacheEntry)

/-- `Map.get`. -/
def mapGet {α : Type} (k : String) : List (String × α) → Option α
  | [] => none
  | kv :: rest => if kv.1 = k then some kv.2 else mapGet k rest

/-- `Map.set`: replace in place when the key exists (keeping its insertion
position), append otherwise. -/
def mapSet {α : Type} (k : String) (v : α) : List (String × α) → List (String × α)
  | [] => [(k, v)]
  | kv :: rest => if kv.1 = k then (k, v) :: rest else kv :: mapSet k v rest

/-- `Map.delete`. -/
def mapDelete {α : Type} (k : String) : List (String × α) → List (String × α)
  | [] => []
  | kv :: rest => if kv.1 = k then mapDelete k rest else kv :: mapDelete k rest

/-- The keys of a map, in insertion order. -/
def cacheKeys {α : Type} (c : List (String × α)) : List String :=
  c.map Prod.fst

lemma cacheKeys_cons {α : Type} (kv : String × α) (rest : List (String × α)) :
    cacheKeys (kv :: rest) = kv.1 :: cacheKeys rest := rfl

/-- `generateCacheKey` (part_002 lines 62-64):
`sourceLang:targetLang:normalized text` with trim + lowercase. -/
def generateCacheKey (text sourceLang targetLang : String) : String :=
  sourceLang ++ ":" ++ targetLang ++ ":" ++ toLowerStr (jsTrim text)

/-- Refresh the timestamp of the entry under `k`, in place (the code mutates
`entry.timestamp` on the found entry, part_002 line 70). -/
def refreshEntry (k : String) (now : Nat) : TCache → TCache
  | [] => []
  | kv :: rest =>
    if kv.1 = k then (kv.1, CacheEntry.mk kv.2.data now) :: rest
    else kv :: refreshEntry k now rest

/-- `getCachedTranslation` (part_002 lines 66-74): a hit refreshes the
entry's last-access timestamp to `now` and returns its data.  The result
pairs the returned value with the cache after the lookup. -/
def getCachedTranslation (k : String) (now : Nat) (c : TCache) :
    Option TranslationResultData × TCache :=
  match mapGet k c with
  | some e => (some e.data, refreshEntry k now c)
  | none => (none, c)

/-- The eviction scan of `setCachedTranslation` (part_002 lines 78-87):
fold over the entries in insertion order keeping the first entry whose
timestamp is strictly below the best so far; the accumulator starts at
`('', Infinity)`, modelled by `("", none)`. -/
def oldestScanAux : String × Option Nat → TCache → String × Option Nat
  | acc, [] => acc
  | acc, kv :: rest =>
    match acc.2 with
    | none => oldestScanAux (kv.1, some kv.2.timestamp) rest
    | some t =>
      if kv.2.timestamp < t then oldestScanAux (kv.1, some kv.2.timestamp) rest
      else oldestScanAux acc rest

/-- The key selected by the eviction scan (`oldestKey`); `""` when the cache
is empty. -/
def oldestKeyOf (c : TCache) : String :=
  (oldestScanAux ("", none) c).1

/-- JS object spread `{ ...existing.data, ...data }` for
`TranslationResultPartial` values: the required properties of `data` always
override; the optional `audioData` overrides exactly when it is present in
`data` - including when it is present with value `undefined`. -/
def jsMergeData (existing incoming : TranslationResultData) : TranslationResultData :=
  { slang := incoming.slang,
    visual_description := incoming.visual_description,
    tags := incoming.tags,
    audioData :=
      match incoming.audioData with
      | none => existing.audioData
      | some v => some v }

/-- The eviction step at the top of `setCachedTranslation` (part_002 lines
77-89): when the store is at capacity, scan for the entry with the minimal
timestamp and delete it - unless the scan produced the falsy key `""`, in
which case `if (oldestKey)` skips the delete. -/
def evictIfFull (c : TCache) : TCache :=
  if 50 ≤ c.length then
    if oldestKeyOf c = "" then c else mapDelete (oldestKeyOf c) c
  else c

/-- `setCachedTranslation` (part_002 lines 76-99): evict when at capacity,
then merge with any existing entry under the key (JS object spread) and
store with a fresh timestamp. -/
def setCachedTranslation (k : String) (d : TranslationResultData) (now : Nat) (c : TCache) :
    TCache :=
  mapSet k
    (CacheEntry.mk
      (match mapGet k (evictIfFull c) with
        | some e => jsMergeData e.data d
        | none => d) now)
    (evictIfFull c)

lemma mapGet_mem {α : Type} (k : String) (v : α) :
    ∀ c : List (String × α), mapGet k c = some v → (k, v) ∈ c := by
  intro c
  induction c with
  | nil => intro h; simp [mapGet] at h
  | cons kv rest ih =>
    intro h
    by_cases hk : kv.1 = k
    · rw [mapGet, if_pos hk] at h
      have h2 : kv.2 = v := Option.some.inj h
      exact List.mem_cons.mpr (Or.inl (by rw [← hk, ← h2]))
    · rw [mapGet, if_neg hk] at h
      exact List.mem_cons_of_mem kv (ih h)

lemma mapDelete_mem {α : Type} (k : String) {kv : String × α} :
    ∀ {c : List (String × α)}, kv ∈ mapDelete k c → kv ∈ c := by
  intro c
  induction c with
  | nil => intro h; simp [mapDelete] at h
  | cons kv' rest ih =>
    intro h
    by_cases hk : kv'.1 = k
    · rw [mapDelete, if_pos hk] at h
      exact List.mem_cons_of_mem kv' (ih h)
    · rw [mapDelete, if_neg hk] at h
      rcases List.mem_cons.mp h with rfl | hmem
      · exact List.mem_cons_self _ _
      · exact List.mem_cons_of_mem kv' (ih hmem)

lemma mapDelete_keys_sub {α : Type} (k x : String) :
    ∀ {c : List (String × α)}, x ∈ cacheKeys (mapDelete k c) → x ∈ cacheKeys c := by
  intro c h
  rcases List.mem_map.mp h with ⟨kv, hmem, hx⟩
  exact List.mem_map.mpr ⟨kv, mapDelete_mem k hmem, hx⟩

lemma mapDelete_not_mem_keys {α : Type} (k : String) :
    ∀ c : List (String × α), k ∉ cacheKeys (mapDelete k c) := by
  intro c
  induction c with
  | nil => simp [mapDelete, cacheKeys]
  | cons kv rest ih =>
    by_cases hk : kv.1 = k
    · rw [mapDelete, if_pos hk]
      exact ih
    · rw [mapDelete, if_neg hk]
      intro h
      rcases List.mem_cons.mp h with heq | hmem
      · exact hk heq.symm
      · exact ih hmem

lemma mapDelete_eq_self {α : Type} (k : String) :
    ∀ {c : List (String × α)}, k ∉ cacheKeys c → mapDelete k c = c := by
  intro c
  induction c with
  | nil => intro _; rfl
  | cons kv rest ih =>
    intro h
    have hk : kv.1 ≠ k := fun he => h (List.mem_cons.mpr (Or.inl he.symm))
    have hrest : k ∉ cacheKeys rest := fun hm => h (List.mem_cons.mpr (Or.inr hm))
    rw [mapDelete, if_neg hk, ih hrest]

lemma mapDelete_nodup {α : Type} (k : String) :
    ∀ {c : List (String × α)}, (cacheKeys c).Nodup → (cacheKeys (mapDelete k c)).Nodup := by
  intro c
  induction c with
  | nil => intro _; simp [mapDelete, cacheKeys]
  | cons kv rest ih =>
    intro h
    rw [cacheKeys, List.map_cons, List.nodup_cons] at h
    by_cases hk : kv.1 = k
    · rw [mapDelete, if_pos hk]
      exact ih h.2
    · rw [mapDelete, if_neg hk, cacheKeys, List.map_cons, List.nodup_cons]
      exact ⟨fun hm => h.1 (mapDelete_keys_sub k kv.1 hm), ih h.2⟩

lemma mapDelete_length {α : Type} (k : String) :
    ∀ {c : List (String × α)}, (cacheKeys c).Nodup → k ∈ cacheKeys c →
      (mapDelete k c).length + 1 = c.length := by
  intro c
  induction c with
  | nil => intro _ h; simp [cacheKeys] at h
  | cons kv rest ih =>
    intro hnd hmem
    rw [cacheKeys, List.map_cons, List.nodup_cons] at hnd
    by_cases hk : kv.1 = k
    · rw [mapDelete, if_pos hk]
      have : k ∉ cacheKeys rest := hk ▸ hnd.1
      rw [mapDelete_eq_self k this]
      simp
    · rw [mapDelete, if_neg hk]
      have hmem' : k ∈ cacheKeys rest := by
        rcases List.mem_cons.mp hmem with heq | hm
        · exact absurd heq.symm hk
        · exact hm
      simp only [List.length_cons]
      rw [← ih hnd.2 hmem']

lemma mapSet_keys_of_mem {α : Type} (k : String) (v : α) :
    ∀ {c : List (String × α)}, k ∈ cacheKeys c → cacheKeys (mapSet k v c) = cacheKeys c := by
  intro c
  induction c with
  | nil => intro h; simp [cacheKeys] at h
  | cons kv rest ih =>
    intro h
    by_cases hk : kv.1 = k
    · rw [mapSet, if_pos hk, cacheKeys_cons, cacheKeys_cons, hk]
    · rw [mapSet, if_neg hk]
      have hmem : k ∈ cacheKeys rest := by
        rw [cacheKeys_cons] at h
        rcases List.mem_cons.mp h with heq | hm
        · exact absurd heq.symm hk
        · exact hm
      rw [cacheKeys_cons, cacheKeys_cons, ih hmem]

lemma mapSet_keys_of_not_mem {α : Type} (k : String) (v : α) :
    ∀ {c : List (String × α)}, k ∉ cacheKeys c →
      cacheKeys (mapSet k v c) = cacheKeys c ++ [k] := by
  intro c
  induction c with
  | nil => intro _; simp [mapSet, cacheKeys]
  | cons kv rest ih =>
    intro h
    rw [cacheKeys_cons] at h
    have hk : kv.1 ≠ k := fun he => h (List.mem_cons.mpr (Or.inl he.symm))
    have hrest : k ∉ cacheKeys rest := fun hm => h (List.mem_cons.mpr (Or.inr hm))
    rw [mapSet, if_neg hk, cacheKeys_cons, cacheKeys_cons, List.cons_append, ih hrest]

lemma mapSet_mem_cases {α : Type} (k : String) (v : α) {kv : String × α} :
    ∀ {c : List (String × α)}, kv ∈ mapSet k v c → kv = (k, v) ∨ kv ∈ c := by
  intro c
  induction c with
  | nil =>
    intro h
    rcases List.mem_cons.mp h with heq | hmem
    · exact Or.inl heq
    · simp at hmem
  | cons kv' rest ih =>
    intro h
    by_cases hk : kv'.1 = k
    · rw [mapSet, if_pos hk] at h
      rcases List.mem_cons.mp h with heq | hmem
      · exact Or.inl heq
      · exact Or.inr (List.mem_cons_of_mem kv' hmem)
    · rw [mapSet, if_neg hk] at h
      rcases List.mem_cons.mp h with heq | hmem
      · exact Or.inr (heq ▸ List.mem_cons_self _ _)
      · rcases ih hmem with h1 | h2
        · exact Or.inl h1
        · exact Or.inr (List.mem_cons_of_mem kv' h2)

lemma mapGet_mapSet_self {α : Type} (k : String) (v : α) :
    ∀ c : List (String × α), mapGet k (mapSet k v c) = some v := by
  intro c
  induction c with
  | nil => simp [mapSet, mapGet]
  | cons kv rest ih =>
    by_cases hk : kv.1 = k
    · rw [mapSet, if_pos hk, mapGet, if_pos rfl]
    · rw [mapSet, if_neg hk, mapGet, if_neg hk]
      exact ih

lemma mapSet_not_mem_keys {α : Type} (k x : String) (v : α)
    (hx : x ≠ k) :
    ∀ {c : List (String × α)}, x ∉ cacheKeys c → x ∉ cacheKeys (mapSet k v c) := by
  intro c h
  by_cases hmem : k ∈ cacheKeys c
  · rw [mapSet_keys_of_mem k v hmem]
    exact h
  · rw [mapSet_keys_of_not_mem k v hmem]
    intro hc
    rcases List.mem_append.mp hc with h1 | h2
    · exact h h1
    · exact hx (List.mem_singleton.mp h2)

lemma mapSet_length_le {α : Type} (k : String) (v : α) :
    ∀ c : List (String × α), (mapSet k v c).length ≤ c.length + 1 := by
  intro c
  induction c with
  | nil => simp [mapSet]
  | cons kv rest ih =>
    by_cases hk : kv.1 = k
    · rw [mapSet, if_pos hk]
      simp
    · rw [mapSet, if_neg hk]
      simp only [List.length_cons]
      omega

lemma refreshEntry_keys (k : String) (now : Nat) :
    ∀ c : TCache, cacheKeys (refreshEntry k now c) = cacheKeys c := by
  intro c
  induction c with
  | nil => rfl
  | cons kv rest ih =>
    by_cases hk : kv.1 = k
    · rw [refreshEntry, if_pos hk, cacheKeys_cons, cacheKeys_cons]
    · rw [refreshEntry, if_neg hk, cacheKeys_cons, cacheKeys_cons, ih]

lemma refreshEntry_length (k : String) (now : Nat) (c : TCache) :
    (refreshEntry k now c).length = c.length := by
  have h := refreshEntry_keys k now c
  have h1 : (cacheKeys (refreshEntry k now c)).length = (cacheKeys c).length := by rw [h]
  simpa [cacheKeys] using h1

lemma mapGet_refreshEntry_self (k : String) (now : Nat) :
    ∀ c : TCache, mapGet k (refreshEntry k now c) =
      (mapGet k c).map (fun e => CacheEntry.mk e.data now) := by
  intro c
  induction c with
  | nil => rfl
  | cons kv rest ih =>
    by_cases hk : kv.1 = k
    · rw [refreshEntry, if_pos hk, mapGet, mapGet]
      simp [hk]
    · rw [refreshEntry, if_neg hk, mapGet, if_neg hk, mapGet, if_neg hk]
      exact ih

lemma refreshEntry_data_mem (k : String) (now : Nat) {kv : String × CacheEntry} :
    ∀ {c : TCache}, kv ∈ refreshEntry k now c → ∃ kv' ∈ c, kv.2.data = kv'.2.data := by
  intro c
  induction c with
  | nil => intro h; simp [refreshEntry] at h
  | cons kv' rest ih =>
    intro h
    by_cases hk : kv'.1 = k
    · rw [refreshEntry, if_pos hk] at h
      rcases List.mem_cons.mp h with rfl | hmem
      · exact ⟨kv', List.mem_cons_self _ _, rfl⟩
      · exact ⟨kv, List.mem_cons_of_mem kv' hmem, rfl⟩
    · rw [refreshEntry, if_neg hk] at h
      rcases List.mem_cons.mp h with rfl | hmem
      · exact ⟨kv, List.mem_cons_self _ _, rfl⟩
      · rcases ih hmem with ⟨kv2, hm2, hd2⟩
        exact ⟨kv2, List.mem_cons_of_mem kv' hm2, hd2⟩

lemma oldestScanAux_spec : ∀ (c : TCache) (k0 : String) (t0 : Nat),
    ∃ t, (oldestScanAux (k0, some t0) c).2 = some t ∧ t ≤ t0 ∧
      (∀ kv ∈ c, t ≤ kv.2.timestamp) ∧
      (((oldestScanAux (k0, some t0) c).1 = k0 ∧ t = t0) ∨
        ∃ e, ((oldestScanAux (k0, some t0) c).1, e) ∈ c ∧ e.timestamp = t) := by
  intro c
  induction c with
  | nil =>
    intro k0 t0
    exact ⟨t0, rfl, le_refl _, by simp, Or.inl ⟨rfl, rfl⟩⟩
  | cons kv rest ih =>
    intro k0 t0
    by_cases hlt : kv.2.timestamp < t0
    · have hstep : oldestScanAux (k0, some t0) (kv :: rest) =
          oldestScanAux (kv.1, some kv.2.timestamp) rest := by
        simp [oldestScanAux, hlt]
      obtain ⟨t, h1, h2, h3, h4⟩ := ih kv.1 kv.2.timestamp
      refine ⟨t, by rw [hstep]; exact h1, le_trans h2 (le_of_lt hlt), ?_, ?_⟩
      · intro kv' hkv'
        rcases List.mem_cons.mp hkv' with rfl | hmem
        · exact h2
        · exact h3 kv' hmem
      · rw [hstep]
        rcases h4 with ⟨hkey, ht⟩ | ⟨e, hmem, ht⟩
        · refine Or.inr ⟨kv.2, ?_, ht.symm ▸ rfl⟩
          rw [hkey]
          exact List.mem_cons_self _ _
        · exact Or.inr ⟨e, List.mem_cons_of_mem _ hmem, ht⟩
    · have hstep : oldestScanAux (k0, some t0) (kv :: rest) =
          oldestScanAux (k0, some t0) rest := by
        simp [oldestScanAux, hlt]
      obtain ⟨t, h1, h2, h3, h4⟩ := ih k0 t0
      refine ⟨t, by rw [hstep]; exact h1, h2, ?_, ?_⟩
      · intro kv' hkv'
        rcases List.mem_cons.mp hkv' with rfl | hmem
        · exact le_trans h2 (not_lt.mp hlt)
        · exact h3 kv' hmem
      · rw [hstep]
        rcases h4 with h | ⟨e, hmem, ht⟩
        · exact Or.inl h
        · exact Or.inr ⟨e, List.mem_cons_of_mem _ hmem, ht⟩

/-- The eviction scan selects an entry present in the cache whose timestamp
is minimal. -/
lemma oldestKeyOf_spec (c : TCache) (hc : c ≠ []) :
    ∃ e, (oldestKeyOf c, e) ∈ c ∧ ∀ kv ∈ c, e.timestamp ≤ kv.2.timestamp := by
  match c, hc with
  | kv :: rest, _ =>
    have hstep : oldestScanAux ("", none) (kv :: rest) =
        oldestScanAux (kv.1, some kv.2.timestamp) rest := by
      simp [oldestScanAux]
    obtain ⟨t, h1, h2, h3, h4⟩ := oldestScanAux_spec rest kv.1 kv.2.timestamp
    unfold oldestKeyOf
    rw [hstep]
    rcases h4 with ⟨hkey, ht⟩ | ⟨e, hmem, ht⟩
    · refine ⟨kv.2, ?_, ?_⟩
      · rw [hkey]
        exact List.mem_cons_self _ _
      · intro kv' h'
        rcases List.mem_cons.mp h' with rfl | hm
        · exact le_refl _
        · exact ht ▸ h3 kv' hm
    · refine ⟨e, List.mem_cons_of_mem _ hmem, ?_⟩
      intro kv' h'
      rcases List.mem_cons.mp h' with rfl | hm
      · exact ht ▸ h2
      · exact ht ▸ h3 kv' hm

lemma oldestKeyOf_mem_keys (c : TCache) (hc : c ≠ []) : oldestKeyOf c ∈ cacheKeys c := by
  obtain ⟨e, hmem, -⟩ := oldestKeyOf_spec c hc
  exact List.mem_map.mpr ⟨(oldestKeyOf c, e), hmem, rfl⟩

/-- The invariant maintained by the translation cache: bounded by 50, keys
unique (a JS `Map`), and no falsy key. -/
def CacheInv (c : TCache) : Prop :=
  c.length ≤ 50 ∧ (cacheKeys c).Nodup ∧ "" ∉ cacheKeys c

lemma cacheKeys_length {α : Type} (c : List (String × α)) :
    (cacheKeys c).length = c.length := by
  simp [cacheKeys]

lemma getCachedTranslation_inv (k : String) (now : Nat) {c : TCache} (h : CacheInv c) :
    CacheInv (getCachedTranslation k now c).2 := by
  unfold getCachedTranslation
  cases hm : mapGet k c with
  | none => exact h
  | some e =>
    obtain ⟨h1, h2, h3⟩ := h
    exact ⟨by rw [refreshEntry_length]; exact h1,
      by rw [refreshEntry_keys]; exact h2,
      by rw [refreshEntry_keys]; exact h3⟩

lemma evictIfFull_spec {c : TCache} (h : CacheInv c) :
    (evictIfFull c).length ≤ 49 ∧ (cacheKeys (evictIfFull c)).Nodup ∧
      "" ∉ cacheKeys (evictIfFull c) := by
  obtain ⟨hlen, hnd, hnil⟩ := h
  unfold evictIfFull
  by_cases hcap : 50 ≤ c.length
  · rw [if_pos hcap]
    have hcne : c ≠ [] := by
      intro h0
      rw [h0] at hcap
      simp at hcap
    have hmemk := oldestKeyOf_mem_keys c hcne
    have hkne : oldestKeyOf c ≠ "" := fun h0 => hnil (h0 ▸ hmemk)
    rw [if_neg hkne]
    have hdlen : (mapDelete (oldestKeyOf c) c).length + 1 = c.length :=
      mapDelete_length (oldestKeyOf c) hnd hmemk
    refine ⟨by omega, mapDelete_nodup (oldestKeyOf c) hnd,
      fun hm => hnil (mapDelete_keys_sub (oldestKeyOf c) "" hm)⟩
  · rw [if_neg hcap]
    exact ⟨by omega, hnd, hnil⟩

lemma setCachedTranslation_inv (k : String) (d : TranslationResultData) (now : Nat)
    {c : TCache} (hk : k ≠ "") (h : CacheInv c) :
    CacheInv (setCachedTranslation k d now c) := by
  obtain ⟨hlen1, hnd1, hnil1⟩ := evictIfFull_spec h
  unfold setCachedTranslation
  refine ⟨?_, ?_, ?_⟩
  · have := mapSet_length_le k
      (CacheEntry.mk
        (match mapGet k (evictIfFull c) with
          | some e => jsMergeData e.data d
          | none => d) now)
      (evictIfFull c)
    omega
  · by_cases hmem : k ∈ cacheKeys (evictIfFull c)
    · rw [mapSet_keys_of_mem _ _ hmem]
      exact hnd1
    · rw [mapSet_keys_of_not_mem _ _ hmem]
      rw [List.nodup_append]
      exact ⟨hnd1, List.nodup_singleton k,
        fun x hx hk2 => hmem ((List.mem_singleton.mp hk2) ▸ hx)⟩
  · by_cases hmem : k ∈ cacheKeys (evictIfFull c)
    · rw [mapSet_keys_of_mem _ _ hmem]
      exact hnil1
    · rw [mapSet_keys_of_not_mem _ _ hmem]
      intro hm
      rcases List.mem_append.mp hm with h1 | h2
      · exact hnil1 h1
      · exact hk (List.mem_singleton.mp h2).symm

/-- One operation against the text-translation store. -/
inductive CacheOp where
  | get : String → Nat → CacheOp
  | set : String → TranslationResultData → Nat → CacheOp
deriving DecidableEq, Repr

/-- The key an operation addresses. -/
def cacheOpKey : CacheOp → String
  | CacheOp.get k _ => k
  | CacheOp.set k _ _ => k

/-- Apply one operation to the store. -/
def applyCacheOp (c : TCache) : CacheOp → TCache
  | CacheOp.get k now => (getCachedTranslation k now c).2
  | CacheOp.set k d now => setCachedTranslation k d now c

/-- Run a sequence of operations against the initially empty store. -/
def runCacheOps (ops : List CacheOp) : TCache :=
  ops.foldl applyCacheOp []

lemma runCacheOps_inv_aux :
    ∀ (ops : List CacheOp) (c : TCache), CacheInv c →
      (∀ op ∈ ops, cacheOpKey op ≠ "") → CacheInv (ops.foldl applyCacheOp c) := by
  intro ops
  induction ops with
  | nil => intro c h _; exact h
  | cons op rest ih =>
    intro c h hops
    rw [List.foldl_cons]
    refine ih (applyCacheOp c op) ?_ (fun o ho => hops o (List.mem_cons_of_mem op ho))
    cases op with
    | get k now => exact getCachedTranslation_inv k now h
    | set k d now =>
      exact setCachedTranslation_inv k d now (hops _ (List.mem_cons_self _ _)) h

/-- C3: starting from the empty store, the text-translation cache holds at
most 50 entries after any sequence of get/set operations (every key the
program uses comes from `generateCacheKey` and is nonempty, the last
conjunct); when a set is performed at capacity the evicted entry is one
whose last-access timestamp is minimal (conjuncts 2 and 3: the scanned key
is present with minimal timestamp, and it is gone after the set whenever it
differs from the inserted key); and a successful get refreshes the looked-up
entry's last-access timestamp to the time of the read (conjunct 4). -/
theorem translationCache_lru (ops : List CacheOp) (c : TCache) (k key : String)
    (d : TranslationResultData) (now : Nat) (text s t : String) :
    ((∀ op ∈ ops, cacheOpKey op ≠ "") → (runCacheOps ops).length ≤ 50) ∧
    (c ≠ [] → ∃ e, (oldestKeyOf c, e) ∈ c ∧ ∀ kv ∈ c, e.timestamp ≤ kv.2.timestamp) ∧
    (50 ≤ c.length → oldestKeyOf c ≠ "" → oldestKeyOf c ≠ key →
      oldestKeyOf c ∉ cacheKeys (setCachedTranslation key d now c)) ∧
    (mapGet k (getCachedTranslation k now c).2 =
      (mapGet k c).map (fun e => CacheEntry.mk e.data now)) ∧
    (generateCacheKey text s t ≠ "") := by
  refine ⟨?_, oldestKeyOf_spec c, ?_, ?_, ?_⟩
  · intro hops
    exact (runCacheOps_inv_aux ops [] ⟨by simp, by simp [cacheKeys], by simp [cacheKeys]⟩ hops).1
  · intro hcap hkne hne
    have hev : evictIfFull c = mapDelete (oldestKeyOf c) c := by
      unfold evictIfFull
      rw [if_pos hcap, if_neg hkne]
    unfold setCachedTranslation
    rw [hev]
    exact mapSet_not_mem_keys key (oldestKeyOf c) _ hne
      (mapDelete_not_mem_keys (oldestKeyOf c) c)
  · unfold getCachedTranslation
    cases hm : mapGet k c with
    | none => simp [hm]
    | some e => simp [mapGet_refreshEntry_self, hm]
  · intro h
    have hlen := congrArg String.length h
    simp [generateCacheKey, String.length_append] at hlen
    exact absurd hlen.1.1.1.2 (by decide)

/-- A fixed payload used by concrete witnesses. -/
def dataW : TranslationResultData :=
  { slang := "w", visual_description := "v", tags := ["t"], audioData := none }

/-- A concrete 50-entry cache (keys "a", "aa", ..., timestamps 1..50) used
to witness the at-capacity eviction conjunct. -/
def cacheW : TCache :=
  (List.range 50).map (fun i => (String.mk (List.replicate (i + 1) 'a'), CacheEntry.mk dataW (i + 1)))

/-- Witness for C3 at concrete inputs. -/
theorem translationCache_lru_witness :
    (runCacheOps [CacheOp.set "en:zh:hello" dataW 7]).length ≤ 50 ∧
    (∃ e, (oldestKeyOf cacheW, e) ∈ cacheW ∧ ∀ kv ∈ cacheW, e.timestamp ≤ kv.2.timestamp) ∧
    oldestKeyOf cacheW ∉ cacheKeys (setCachedTranslation "zz" dataW 99 cacheW) ∧
    mapGet "a" (getCachedTranslation "a" 99 cacheW).2 =
      (mapGet "a" cacheW).map (fun e => CacheEntry.mk e.data 99) ∧
    generateCacheKey "Hello " "en" "zh" ≠ "" := by
  obtain ⟨h1, h2, h3, h4, h5⟩ :=
    translationCache_lru [CacheOp.set "en:zh:hello" dataW 7] cacheW "a" "zz" dataW 99
      "Hello " "en" "zh"
  exact ⟨h1 (by decide), h2 (by decide), h3 (by decide) (by decide) (by decide), h4, h5⟩

/-- C7 counterexample: the orchestrator's cache write always passes the
`audioData` property explicitly (TranslationBox.tsx lines 169-174), possibly
with value `undefined`; JS object spread copies a present-but-undefined
property, so a set whose value carries `audioData: undefined` erases audio
already cached under the key instead of preserving it. -/
theorem setCachedTranslation_counterexample :
    (mapGet "en:zh:hi"
        [("en:zh:hi", CacheEntry.mk
          { slang := "old", visual_description := "vd", tags := ["Old"],
            audioData := some (some "AUDIO") } 0)]).map (fun e => e.data.audioData) =
      some (some (some "AUDIO")) ∧
    (mapGet "en:zh:hi"
        (setCachedTranslation "en:zh:hi"
          { slang := "new", visual_description := "vd2", tags := ["New"],
            audioData := some none } 1
          [("en:zh:hi", CacheEntry.mk
            { slang := "old", visual_description := "vd", tags := ["Old"],
              audioData := some (some "AUDIO") } 0)])).map (fun e => e.data.audioData) =
      some (some none) ∧
    (some (some (none : Option String)) : Option (Option (Option String))) ≠
      some (some (some "AUDIO")) := by
  refine ⟨by decide, by decide, by decide⟩

/-- C7 (amended): for a key already present in a below-capacity store, a set
merges field-by-field with the new value's present fields taking precedence
and refreshes the timestamp: the required `slang`/`visual_description`/`tags`
always come from the new value; the cached audio survives exactly when the
new value's `audioData` property is absent; audio arriving in a later set
augments a text-only entry, but a set carrying an explicitly-undefined
`audioData` - the shape the orchestrator always passes - erases audio
already cached under the key. -/
theorem setCachedTranslation_merge_amended (key : String) (c : TCache) (e : CacheEntry)
    (d : TranslationResultData) (now : Nat) (a : String)
    (hlen : c.length < 50) (hget : mapGet key c = some e) :
    mapGet key (setCachedTranslation key d now c) =
      some (CacheEntry.mk (jsMergeData e.data d) now) ∧
    (jsMergeData e.data d).slang = d.slang ∧
    (jsMergeData e.data d).visual_description = d.visual_description ∧
    (jsMergeData e.data d).tags = d.tags ∧
    (d.audioData = none → (jsMergeData e.data d).audioData = e.data.audioData) ∧
    (d.audioData = some (some a) → (jsMergeData e.data d).audioData = some (some a)) ∧
    (d.audioData = some none → (jsMergeData e.data d).audioData = some none) := by
  have hev : evictIfFull c = c := by
    unfold evictIfFull
    rw [if_neg (by omega)]
  refine ⟨?_, rfl, rfl, rfl, ?_, ?_, ?_⟩
  · unfold setCachedTranslation
    rw [hev, hget, mapGet_mapSet_self]
  · intro h
    simp [jsMergeData, h]
  · intro h
    simp [jsMergeData, h]
  · intro h
    simp [jsMergeData, h]

/-- Witness for C7 (amended) at concrete inputs: audio arriving later
augments a text-only entry. -/
theorem setCachedTranslation_merge_amended_witness :
    mapGet "k"
        (setCachedTranslation "k"
          { slang := "new", visual_description := "v2", tags := ["B"],
            audioData := some (some "AU") } 5
          [("k", CacheEntry.mk
            { slang := "old", visual_description := "v1", tags := ["A"],
              audioData := none } 0)]) =
      some (CacheEntry.mk
        (jsMergeData
          { slang := "old", visual_description := "v1", tags := ["A"], audioData := none }
          { slang := "new", visual_description := "v2", tags := ["B"],
            audioData := some (some "AU") }) 5) ∧
    (jsMergeData
        { slang := "old", visual_description := "v1", tags := ["A"],
          audioData := none }
        { slang := "new", visual_description := "v2", tags := ["B"],
          audioData := some (some "AU") }).audioData = some (some "AU") := by
  obtain ⟨h1, -, -, -, -, h6, -⟩ :=
    setCachedTranslation_merge_amended "k"
      [("k", CacheEntry.mk
        { slang := "old", visual_description := "v1", tags := ["A"], audioData := none } 0)]
      (CacheEntry.mk
        { slang := "old", visual_description := "v1", tags := ["A"], audioData := none } 0)
      { slang := "new", visual_description := "v2", tags := ["B"],
        audioData := some (some "AU") } 5 "AU"
      (by decide) (by decide)
  exact ⟨h1, h6 rfl⟩

/-- Key of the reverse-translation cache (part_002 lines 104, 109):
`targetLang:trimmedText` (trimmed, not lowercased). -/
def reverseKey (text targetLang : String) : String :=
  targetLang ++ ":" ++ jsTrim text

/-- `getCachedReverseTranslation` (part_002 lines 103-106): `get(key) || null`,
so an empty cached string behaves as a miss. -/
def getCachedReverseTranslation (text targetLang : String) (c : List (String × String)) :
    Option String :=
  match mapGet (reverseKey text targetLang) c with
  | some v => if v = "" then none else some v
  | none => none

/-- The FIFO eviction step of `setCachedReverseTranslation` (part_002 lines
110-114): at capacity 100 delete the first-inserted key (skipped when that
key is the falsy `""`, which the program's keys never are since every key
contains ':'). -/
def reverseEvictIfFull (c : List (String × String)) : List (String × String) :=
  if 100 ≤ c.length then
    match c.head? with
    | some kv => if kv.1 = "" then c else mapDelete kv.1 c
    | none => c
  else c

/-- `setCachedReverseTranslation` (part_002 lines 108-116). -/
def setCachedReverseTranslation (text targetLang result : String)
    (c : List (String × String)) : List (String × String) :=
  mapSet (reverseKey text targetLang) result (reverseEvictIfFull c)

lemma reverseEvictIfFull_mem {kv : String × String} {c : List (String × String)}
    (h : kv ∈ reverseEvictIfFull c) : kv ∈ c := by
  unfold reverseEvictIfFull at h
  repeat' split at h
  all_goals first
  | exact h
  | exact mapDelete_mem _ h

/-- The sentinel result of `getReverseTranslation` (part_003 line 425). -/
def noTranslationFound : String := "No translation found"

/-- Model of JS `String.startsWith`. -/
def strStartsWith (s pat : String) : Bool :=
  startsWithChars pat.toList s.toList

/-- One candidate of the generation response as `getReverseTranslation`
inspects it (part_003 lines 437-444). -/
structure GenCandidate where
  partText : Option String
  finishReason : Option String
deriving DecidableEq, Repr

/-- The generation response as `getReverseTranslation` inspects it:
`textGetter` is `response.text` (`none` models the getter throwing, which
the code catches and ignores), `candidate` is `response.candidates?.[0]`. -/
structure GenResponse where
  textGetter : Option String
  candidate : Option GenCandidate
deriving DecidableEq, Repr

/-- The bracketed finish-reason fallback (part_003 lines 441-443): only a
truthy finish reason different from 'STOP' produces `[reason]`. -/
def reverseFinishMarker (cand : GenCandidate) : String :=
  match cand.finishReason with
  | some fr =>
    if fr = "" then noTranslationFound
    else if fr = "STOP" then noTranslationFound
    else "[" ++ fr ++ "]"
  | none => noTranslationFound

/-- The result-extraction logic of `getReverseTranslation` (part_003 lines
425-445): try `response.text`, fall back to deep candidate inspection only
while the result is still the sentinel. -/
def reverseResultOf (resp : GenResponse) : String :=
  if (match resp.textGetter with
      | some t => if t = "" then noTranslationFound else jsTrim t
      | none => noTranslationFound) = noTranslationFound then
    match resp.candidate with
    | some cand =>
      match cand.partText with
      | some pt => if pt = "" then reverseFinishMarker cand else jsTrim pt
      | none => reverseFinishMarker cand
    | none => noTranslationFound
  else
    match resp.textGetter with
    | some t => if t = "" then noTranslationFound else jsTrim t
    | none => noTranslationFound

/-- `getReverseTranslation` (part_003 lines 388-454) reduced to its cache
interaction: return a cached value when present; otherwise compute the
result from the response and write it to the cache only when it is neither
the sentinel nor a bracketed marker (part_003 lines 447-450). -/
def getReverseTranslation (text targetLangCode : String) (resp : GenResponse)
    (c : List (String × String)) : String × List (String × String) :=
  match getCachedReverseTranslation text targetLangCode c with
  | some cached => (cached, c)
  | none =>
    if reverseResultOf resp = noTranslationFound then (reverseResultOf resp, c)
    else if strStartsWith (reverseResultOf resp) "[" then (reverseResultOf resp, c)
    else (reverseResultOf resp,
      setCachedReverseTranslation text targetLangCode (reverseResultOf resp) c)

/-- C10: a reverse-translation result equal to the sentinel or beginning
with '[' is returned to the caller but never written to the
reverse-translation cache (conjunct 1: the cache is unchanged), and the
cache only ever contains values that are neither the sentinel nor a
bracketed marker (conjunct 2: the property is preserved by every call). -/
theorem reverseCache_no_failures (text lang : String) (resp : GenResponse)
    (c : List (String × String))
    (hgood : ∀ kv ∈ c, kv.2 ≠ noTranslationFound ∧ strStartsWith kv.2 "[" = false) :
    (((getReverseTranslation text lang resp c).1 = noTranslationFound ∨
        strStartsWith (getReverseTranslation text lang resp c).1 "[" = true) →
      (getReverseTranslation text lang resp c).2 = c) ∧
    (∀ kv ∈ (getReverseTranslation text lang resp c).2,
      kv.2 ≠ noTranslationFound ∧ strStartsWith kv.2 "[" = false) := by
  unfold getReverseTranslation
  cases hc : getCachedReverseTranslation text lang c with
  | some cached => exact ⟨fun _ => rfl, hgood⟩
  | none =>
    by_cases h1 : reverseResultOf resp = noTranslationFound
    · rw [if_pos h1]
      exact ⟨fun _ => rfl, hgood⟩
    · rw [if_neg h1]
      by_cases h2 : strStartsWith (reverseResultOf resp) "[" = true
      · rw [if_pos h2]
        exact ⟨fun _ => rfl, hgood⟩
      · rw [if_neg h2]
        refine ⟨fun hbad => ?_, fun kv hkv => ?_⟩
        · rcases hbad with hb | hb
          · exact absurd hb h1
          · exact absurd hb h2
        · unfold setCachedReverseTranslation at hkv
          rcases mapSet_mem_cases _ _ hkv with rfl | hmem
          · exact ⟨h1, Bool.eq_false_iff.mpr h2⟩
          · exact hgood kv (reverseEvictIfFull_mem hmem)

/-- Witness for C10 at concrete inputs: a safety-blocked response produces
the bracketed marker `[SAFETY]`, which is returned but leaves the cache
unchanged. -/
theorem reverseCache_no_failures_witness :
    (getReverseTranslation "kill him" "zh"
        (GenResponse.mk none (some (GenCandidate.mk none (some "SAFETY"))))
        [("zh:x", "ok")]).1 = "[SAFETY]" ∧
    (getReverseTranslation "kill him" "zh"
        (GenResponse.mk none (some (GenCandidate.mk none (some "SAFETY"))))
        [("zh:x", "ok")]).2 = [("zh:x", "ok")] := by
  have h := reverseCache_no_failures "kill him" "zh"
    (GenResponse.mk none (some (GenCandidate.mk none (some "SAFETY"))))
    [("zh:x", "ok")] (by decide)
  exact ⟨by decide, h.1 (by decide)⟩

/-- The orchestrator's loading state (part_001 lines 21-24). -/
inductive Status where
  | idle
  | recording
  | translating_text
  | loading_assets
  | success
  | error
deriving DecidableEq, Repr

/-- The TS `TranslationRecord` (part_001 lines 1-12). -/
structure TranslationRecord where
  id : String
  originalText : String
  translatedText : String
  imagePrompt : Option String
  imageUrl : Option String
  audioData : Option String
  tags : List String
  timestamp : Nat
  sourceLang : String
  targetLang : String
deriving DecidableEq, Repr

/-- The enrichment metadata returned by `enrichTranslationMetadata`
(part_003 lines 237-244). -/
structure EnrichMeta where
  tags : List String
  visual_description : String
deriving DecidableEq, Repr

/-- The backend's behaviour for one request, as the orchestrator observes
it: the fragments the streaming translation yields, the settled outcome of
the speech-synthesis task (`none` = rejection, caught non-fatally), and the
settled outcome of the enrichment task (`none` = rejection, caught
non-fatally). -/
structure BackendOracle where
  streamChunks : List String
  speechResult : Option String
  metaResult : Option EnrichMeta
deriving DecidableEq, Repr

/-- The backend operations the orchestrator can invoke. -/
inductive BackendCall where
  | stream
  | fullTranslate
  | enrich
  | speech
deriving DecidableEq, Repr

/-- The orchestrator's state: the active-request identifier cell
(`activeRequestIdRef`), the loading state, the visible current record, the
history list (App.tsx), and the text-translation cache. -/
structure AppState where
  activeRequestId : Nat
  status : Status
  currentResult : Option TranslationRecord
  history : List TranslationRecord
  cache : TCache
deriving DecidableEq, Repr

/-- `handleNewTranslation` (App.tsx lines 19-21): prepend and keep the most
recent 50. -/
def onNewTranslation (r : TranslationRecord) (h : List TranslationRecord) :
    List TranslationRecord :=
  (r :: h).take 50

/-- The start of `handleTranslate` (TranslationBox.tsx lines 28-37): install
the new request identifier, enter `translating_text`, clear the visible
record. -/
def startRequest (requestId : Nat) (st : AppState) : AppState :=
  { st with
      activeRequestId := requestId
      status := Status.translating_text
      currentResult := none }

/-- One stream-fragment continuation (TranslationBox.tsx lines 88-92): if
the request is no longer active, return without touching anything;
otherwise push the grown translation text into the visible record. -/
def streamChunkStep (requestId : Nat) (grownText : String) (st : AppState) : AppState :=
  if st.activeRequestId ≠ requestId then st
  else { st with currentResult :=
    st.currentResult.map (fun p => { p with translatedText := grownText }) }

/-- The audio task's completion continuation (TranslationBox.tsx lines
120-135): a stale request throws `"Stale request"`, which the task's catch
swallows, so nothing is mutated; an active request merges the audio into
the visible record. -/
def audioTaskComplete (requestId : Nat) (audioBase64 : String) (st : AppState) : AppState :=
  if st.activeRequestId ≠ requestId then st
  else { st with currentResult :=
    st.currentResult.map (fun p => { p with audioData := some audioBase64 }) }

/-- The metadata task's completion continuation (TranslationBox.tsx lines
138-156): same staleness discipline as the audio task. -/
def metadataTaskComplete (requestId : Nat) (meta : EnrichMeta) (st : AppState) : AppState :=
  if st.activeRequestId ≠ requestId then st
  else { st with currentResult :=
    st.currentResult.map (fun p =>
      { p with tags := meta.tags, imagePrompt := some meta.visual_description }) }

/-- The finalization continuation (TranslationBox.tsx lines 158-177): only
an active request commits the finished record to history, writes the cache
and transitions to success. -/
def finalizeRequest (requestId : Nat) (rec : TranslationRecord) (cacheKey : Option String)
    (d : TranslationResultData) (now : Nat) (st : AppState) : AppState :=
  if st.activeRequestId ≠ requestId then st
  else
    { st with
        history := onNewTranslation rec st.history,
        cache :=
          match cacheKey with
          | some k => setCachedTranslation k d now st.cache
          | none => st.cache,
        status := Status.success }

/-- C1: once a second translate call has installed a newer (larger, since
identifiers are `Date.now()` values) active-request identifier, every
continuation of the earlier request - stream-fragment consumption, audio
completion, metadata completion, finalization - leaves the state untouched:
no change to the visible record, no history commit, no cache write. -/
theorem stale_continuations_no_mutation (st st0 : AppState) (oldId : Nat)
    (grownText audioBase64 : String) (meta : EnrichMeta) (rec : TranslationRecord)
    (cacheKey : Option String) (d : TranslationResultData) (now : Nat)
    (h : oldId < st.activeRequestId) :
    (startRequest st.activeRequestId st0).activeRequestId = st.activeRequestId ∧
    streamChunkStep oldId grownText st = st ∧
    audioTaskComplete oldId audioBase64 st = st ∧
    metadataTaskComplete oldId meta st = st ∧
    finalizeRequest oldId rec cacheKey d now st = st := by
  have hne : st.activeRequestId ≠ oldId := by omega
  refine ⟨rfl, ?_, ?_, ?_, ?_⟩
  · rw [streamChunkStep, if_pos hne]
  · rw [audioTaskComplete, if_pos hne]
  · rw [metadataTaskComplete, if_pos hne]
  · unfold finalizeRequest
    rw [if_pos hne]

/-- A state in which request 2 is active, used by concrete witnesses. -/
def stStale : AppState :=
  { activeRequestId := 2, status := Status.translating_text, currentResult := none,
    history := [], cache := [] }

/-- A concrete finished record used by witnesses. -/
def recW : TranslationRecord :=
  { id := "1", originalText := "hello", translatedText := "yo", imagePrompt := none,
    imageUrl := none, audioData := none, tags := ["t"], timestamp := 0,
    sourceLang := "en", targetLang := "zh" }

/-- Witness for C1 at concrete inputs. -/
theorem stale_continuations_no_mutation_witness :
    streamChunkStep 1 "x" stStale = stStale ∧
    audioTaskComplete 1 "AU" stStale = stStale ∧
    metadataTaskComplete 1 (EnrichMeta.mk ["t"] "v") stStale = stStale ∧
    finalizeRequest 1 recW (some "k") dataW 9 stStale = stStale := by
  have h := stale_continuations_no_mutation stStale stStale 1 "x" "AU"
    (EnrichMeta.mk ["t"] "v") recW (some "k") dataW 9 (by decide)
  exact ⟨h.2.1, h.2.2.1, h.2.2.2.1, h.2.2.2.2⟩

/-- The skeleton record shown while streaming (TranslationBox.tsx lines
73-83). -/
def skeletonRecord (input source target : String) (requestId now : Nat) : TranslationRecord :=
  { id := toString requestId, originalText := input, translatedText := "",
    imagePrompt := none, imageUrl := none, audioData := none, tags := [],
    timestamp := now, sourceLang := source, targetLang := target }

/-- The record synthesized on a full cache hit (TranslationBox.tsx lines
51-61). -/
def fullHitRecord (input source target : String) (requestId now : Nat)
    (cd : TranslationResultData) : TranslationRecord :=
  { id := toString requestId, originalText := input, translatedText := cd.slang,
    imagePrompt := some cd.visual_description, imageUrl := none,
    audioData := flattenAudio cd.audioData, tags := cd.tags,
    timestamp := now, sourceLang := source, targetLang := target }

/-- The baseline record pushed when the translation text is complete
(TranslationBox.tsx lines 100-115): cached tags and visual description are
preserved when present. -/
def baseRecord (input source target : String) (requestId now : Nat)
    (cd? : Option TranslationResultData) (finalText : String) : TranslationRecord :=
  { id := toString requestId, originalText := input, translatedText := finalText,
    imagePrompt := cd?.map (fun cd => cd.visual_description), imageUrl := none,
    audioData := none,
    tags := match cd? with | some cd => cd.tags | none => [],
    timestamp := now, sourceLang := source, targetLang := target }

/-- The settled metadata (TranslationBox.tsx lines 138-143): reuse cached
tags and visual description when both are truthy (a JS array is always
truthy, so the test reduces to a nonempty cached visual description);
otherwise the enrichment task's outcome. -/
def metaOutcome (oracle : BackendOracle) (cd? : Option TranslationResultData) :
    Option EnrichMeta :=
  match cd? with
  | some cd =>
    if cd.visual_description = "" then oracle.metaResult
    else some { tags := cd.tags, visual_description := cd.visual_description }
  | none => oracle.metaResult

/-- The enrichment backend call is made exactly when the cached metadata
cannot be reused. -/
def metaCalls (cd? : Option TranslationResultData) : List BackendCall :=
  match cd? with
  | some cd => if cd.visual_description = "" then [BackendCall.enrich] else []
  | none => [BackendCall.enrich]

/-- The finished record after both parallel tasks settle (TranslationBox.tsx
lines 119-160): the audio task merges its payload on success and leaves
audio absent on failure; the metadata task merges tags and visual
description on success and leaves the baseline on failure. -/
def settledRecord (base : TranslationRecord) (audioResult : Option String)
    (meta? : Option EnrichMeta) : TranslationRecord :=
  match meta? with
  | some m =>
    match audioResult with
    | some a =>
      { base with
          audioData := some a
          tags := m.tags
          imagePrompt := some m.visual_description }
    | none => { base with tags := m.tags, imagePrompt := some m.visual_description }
  | none =>
    match audioResult with
    | some a => { base with audioData := some a }
    | none => base

/-- The finalization of an active request (TranslationBox.tsx lines
158-177): commit the record to history, write the finished tuple back to
the text-translation cache under the computed key (with the `audioData`
property explicitly present), transition to success. -/
def finishedState (rec : TranslationRecord) (finalText cacheKey : String) (now : Nat)
    (st : AppState) : AppState :=
  { st with
      status := Status.success,
      currentResult := some rec,
      history := onNewTranslation rec st.history,
      cache := setCachedTranslation cacheKey
        { slang := finalText,
          visual_description := rec.imagePrompt.getD "",
          tags := rec.tags,
          audioData := some rec.audioData } now st.cache }

/-- Strategy B of `handleTranslate` (TranslationBox.tsx lines 68-177) for an
active request: stream (or reuse cached text), run the two asset tasks, and
finalise.  The intermediate per-fragment updates of the visible record are
the `streamChunkStep` continuations; this sequential composition gives
their final result. -/
def assetsPhase (input source target : String) (requestId now : Nat)
    (oracle : BackendOracle) (cd? : Option TranslationResultData)
    (finalText cacheKey : String) (st : AppState) (calls : List BackendCall) :
    AppState × List BackendCall :=
  (finishedState
      (settledRecord (baseRecord input source target requestId now cd? finalText)
        oracle.speechResult (metaOutcome oracle cd?))
      finalText cacheKey now st,
    calls ++ [BackendCall.speech] ++ metaCalls cd?)

/-- Strategy A of `handleTranslate` (TranslationBox.tsx lines 47-66): a full
cache hit commits the record built from the cached entry and succeeds with
no backend interaction. -/
def fullHitFinish (input source target : String) (requestId now : Nat)
    (cd : TranslationResultData) (st : AppState) : AppState × List BackendCall :=
  ({ st with
      currentResult := some (fullHitRecord input source target requestId now cd),
      status := Status.success,
      history := onNewTranslation (fullHitRecord input source target requestId now cd)
        st.history },
    [])

/-- The branch structure of `handleTranslate` after the cache lookup
(TranslationBox.tsx lines 46-93): full hit, partial hit (cached text, no
streaming), or fresh generation via the stream. -/
def handleTranslateCont (input source target : String) (requestId now : Nat)
    (oracle : BackendOracle) (cacheKey : String)
    (cachedData : Option TranslationResultData) (st1 : AppState) :
    AppState × List BackendCall :=
  match cachedData with
  | some cd =>
    if audioTruthy cd.audioData then
      fullHitFinish input source target requestId now cd st1
    else
      assetsPhase input source target requestId now oracle (some cd) cd.slang cacheKey st1 []
  | none =>
    assetsPhase input source target requestId now oracle none
      (String.join oracle.streamChunks) cacheKey
      { st1 with currentResult := some (skeletonRecord input source target requestId now) }
      [BackendCall.stream]

/-- `handleTranslate` for a textual input that stays the active request
throughout (TranslationBox.tsx lines 27-209): install the request id, look
up the cache (which refreshes the hit entry's timestamp), and continue per
the branch structure. -/
def handleTranslateText (input source target : String) (requestId now : Nat)
    (oracle : BackendOracle) (st : AppState) : AppState × List BackendCall :=
  handleTranslateCont input source target requestId now oracle
    (generateCacheKey input source target)
    (getCachedTranslation (generateCacheKey input source target) now st.cache).1
    { startRequest requestId st with
        cache := (getCachedTranslation (generateCacheKey input source target) now st.cache).2 }

/-- C2: when the cache lookup for the computed key yields an entry whose
audio is truthy (a full cache hit), `handleTranslate` builds the final
record entirely from the cached entry, shows it, commits it to history and
transitions to success with an empty backend-call list - no streaming,
full-translation, enrichment or speech-synthesis call. -/
theorem fullCacheHit_no_backend (input source target : String) (requestId now : Nat)
    (oracle : BackendOracle) (st : AppState) (cd : TranslationResultData)
    (h1 : (getCachedTranslation (generateCacheKey input source target) now st.cache).1 =
      some cd)
    (h2 : audioTruthy cd.audioData = true) :
    handleTranslateText input source target requestId now oracle st =
      ({ st with
          activeRequestId := requestId,
          status := Status.success,
          currentResult := some (fullHitRecord input source target requestId now cd),
          history := onNewTranslation (fullHitRecord input source target requestId now cd)
            st.history,
          cache := (getCachedTranslation (generateCacheKey input source target) now st.cache).2 },
        []) := by
  unfold handleTranslateText
  rw [h1]
  simp only [handleTranslateCont]
  rw [if_pos h2]
  rfl

/-- The cached payload of the full-hit witness. -/
def cdW : TranslationResultData :=
  { slang := "yo", visual_description := "v", tags := ["t"], audioData := some (some "AU") }

/-- The oracle of the full-hit witness (its fields are never consulted on a
full hit). -/
def oracleW : BackendOracle :=
  { streamChunks := ["a"], speechResult := none, metaResult := none }

/-- The starting state of the full-hit witness: the cache holds both text
and audio under the computed key. -/
def stW : AppState :=
  { activeRequestId := 0, status := Status.idle, currentResult := none, history := [],
    cache := [(generateCacheKey "hi" "en" "zh", CacheEntry.mk cdW 3)] }

/-- Witness for C2 at concrete inputs. -/
theorem fullCacheHit_no_backend_witness :
    (handleTranslateText "hi" "en" "zh" 1 10 oracleW stW).2 = [] ∧
    (handleTranslateText "hi" "en" "zh" 1 10 oracleW stW).1.status = Status.success ∧
    (handleTranslateText "hi" "en" "zh" 1 10 oracleW stW).1.currentResult =
      some (fullHitRecord "hi" "en" "zh" 1 10 cdW) ∧
    (handleTranslateText "hi" "en" "zh" 1 10 oracleW stW).1.history =
      onNewTranslation (fullHitRecord "hi" "en" "zh" 1 10 cdW) [] := by
  have h := fullCacheHit_no_backend "hi" "en" "zh" 1 10 oracleW stW cdW (by decide) (by decide)
  rw [h]
  exact ⟨rfl, rfl, rfl, rfl⟩

/-- C9 counterexample: neither `enrichTranslationMetadata` (part_003 line
239, `parsed.tags || ["Gaming"]`) nor `handleTranslate` truncates tags, so a
backend enrichment response carrying four tag strings produces a visible
record (and a history entry and a cache value) with four tags, violating the
at-most-3 invariant. -/
theorem tags_not_truncated_counterexample :
    ((handleTranslateText "hello" "en" "zh" 1 10
        (BackendOracle.mk ["x"] (some "AU") (some (EnrichMeta.mk ["A", "B", "C", "D"] "v")))
        (AppState.mk 0 Status.idle none [] [])).1.currentResult.map
      (fun rec => rec.tags.length)) = some 4 ∧
    ¬ (4 ≤ 3) := by
  exact ⟨by decide, by decide⟩

lemma onNewTranslation_mem {r rec : TranslationRecord} {h : List TranslationRecord}
    (hm : r ∈ onNewTranslation rec h) : r = rec ∨ r ∈ h := by
  unfold onNewTranslation at hm
  exact List.mem_cons.mp (List.take_subset _ _ hm)

lemma evictIfFull_mem {kv : String × CacheEntry} {c : TCache}
    (h : kv ∈ evictIfFull c) : kv ∈ c := by
  unfold evictIfFull at h
  repeat' split at h
  all_goals first
  | exact h
  | exact mapDelete_mem _ h

/-- Every entry of the store after a set either carries the incoming tags or
is a data-preserving copy of an entry that was already there. -/
lemma setCachedTranslation_mem_tags (k : String) (d : TranslationResultData) (now : Nat)
    {kv : String × CacheEntry} {c : TCache} (h : kv ∈ setCachedTranslation k d now c) :
    kv.2.data.tags = d.tags ∨ ∃ kv' ∈ c, kv.2.data = kv'.2.data := by
  unfold setCachedTranslation at h
  rcases mapSet_mem_cases _ _ h with rfl | hmem
  · left
    cases hm : mapGet k (evictIfFull c) with
    | none => simp [hm]
    | some e => simp [hm, jsMergeData]
  · exact Or.inr ⟨kv, evictIfFull_mem hmem, rfl⟩

lemma getCachedTranslation_snd_tags (k : String) (now : Nat) {c : TCache}
    (hc : ∀ kv ∈ c, kv.2.data.tags.length ≤ 3) :
    ∀ kv ∈ (getCachedTranslation k now c).2, kv.2.data.tags.length ≤ 3 := by
  unfold getCachedTranslation
  cases hm : mapGet k c with
  | none => exact hc
  | some e =>
    intro kv hkv
    obtain ⟨kv', hm', hd⟩ := refreshEntry_data_mem k now hkv
    rw [hd]
    exact hc kv' hm'

lemma getCachedTranslation_fst_tags (k : String) (now : Nat) {c : TCache}
    (hc : ∀ kv ∈ c, kv.2.data.tags.length ≤ 3)
    {cd : TranslationResultData} (h : (getCachedTranslation k now c).1 = some cd) :
    cd.tags.length ≤ 3 := by
  unfold getCachedTranslation at h
  cases hm : mapGet k c with
  | none =>
    rw [hm] at h
    simp at h
  | some e =>
    rw [hm] at h
    have he : e.data = cd := by simpa using h
    rw [← he]
    exact hc (k, e) (mapGet_mem k e c hm)

lemma settledRecord_tags (base : TranslationRecord) (audioResult : Option String)
    (meta? : Option EnrichMeta) :
    (settledRecord base audioResult meta?).tags =
      match meta? with
      | some m => m.tags
      | none => base.tags := by
  cases meta? <;> cases audioResult <;> rfl

lemma metaOutcome_tags (oracle : BackendOracle) (cd? : Option TranslationResultData)
    (hmeta : ∀ m, oracle.metaResult = some m → m.tags.length ≤ 3)
    (hcd : ∀ cd, cd? = some cd → cd.tags.length ≤ 3) :
    ∀ m, metaOutcome oracle cd? = some m → m.tags.length ≤ 3 := by
  intro m hm
  cases cd? with
  | none => exact hmeta m hm
  | some cd =>
    simp only [metaOutcome] at hm
    by_cases hv : cd.visual_description = ""
    · rw [if_pos hv] at hm
      exact hmeta m hm
    · rw [if_neg hv] at hm
      have : EnrichMeta.mk cd.tags cd.visual_description = m := Option.some.inj hm
      rw [← this]
      exact hcd cd rfl

lemma assetsPhase_tags (input source target : String) (requestId now : Nat)
    (oracle : BackendOracle) (cd? : Option TranslationResultData)
    (finalText cacheKey : String) (st : AppState) (calls : List BackendCall)
    (hhist : ∀ r ∈ st.history, r.tags.length ≤ 3)
    (hcache : ∀ kv ∈ st.cache, kv.2.data.tags.length ≤ 3)
    (hmeta : ∀ m, oracle.metaResult = some m → m.tags.length ≤ 3)
    (hcd : ∀ cd, cd? = some cd → cd.tags.length ≤ 3) :
    (∀ r ∈ (assetsPhase input source target requestId now oracle cd? finalText cacheKey
        st calls).1.history, r.tags.length ≤ 3) ∧
    (∀ r, (assetsPhase input source target requestId now oracle cd? finalText cacheKey
        st calls).1.currentResult = some r → r.tags.length ≤ 3) ∧
    (∀ kv ∈ (assetsPhase input source target requestId now oracle cd? finalText cacheKey
        st calls).1.cache, kv.2.data.tags.length ≤ 3) := by
  have hbase : (baseRecord input source target requestId now cd? finalText).tags.length ≤ 3 := by
    unfold baseRecord
    cases cd? with
    | none => simp
    | some cd => exact hcd cd rfl
  have hrec : (settledRecord (baseRecord input source target requestId now cd? finalText)
      oracle.speechResult (metaOutcome oracle cd?)).tags.length ≤ 3 := by
    rw [settledRecord_tags]
    cases hmo : metaOutcome oracle cd? with
    | none => exact hbase
    | some m => exact metaOutcome_tags oracle cd? hmeta hcd m hmo
  refine ⟨?_, ?_, ?_⟩
  · intro r hr
    rcases onNewTranslation_mem hr with rfl | hmem
    · exact hrec
    · exact hhist r hmem
  · intro r hr
    have : settledRecord (baseRecord input source target requestId now cd? finalText)
        oracle.speechResult (metaOutcome oracle cd?) = r := Option.some.inj hr
    rw [← this]
    exact hrec
  · intro kv hkv
    rcases setCachedTranslation_mem_tags _ _ _ hkv with heq | ⟨kv', hm', hd⟩
    · rw [heq]
      exact hrec
    · rw [hd]
      exact hcache kv' hm'

/-- C9 (amended): records carry whatever tags the backend's (or cached)
response contains, untruncated; the at-most-3 bound is an invariant only
under the assumption that every enrichment outcome and every previously
stored value carries at most 3 tags, in which case every record the request
produces - visible record, history entry, cache value - keeps it. -/
theorem tags_bound_amended (input source target : String) (requestId now : Nat)
    (oracle : BackendOracle) (st : AppState)
    (hhist : ∀ r ∈ st.history, r.tags.length ≤ 3)
    (hcache : ∀ kv ∈ st.cache, kv.2.data.tags.length ≤ 3)
    (hmeta : ∀ m, oracle.metaResult = some m → m.tags.length ≤ 3) :
    (∀ r ∈ (handleTranslateText input source target requestId now oracle st).1.history,
      r.tags.length ≤ 3) ∧
    (∀ r, (handleTranslateText input source target requestId now oracle st).1.currentResult =
        some r → r.tags.length ≤ 3) ∧
    (∀ kv ∈ (handleTranslateText input source target requestId now oracle st).1.cache,
      kv.2.data.tags.length ≤ 3) := by
  have hsnd := getCachedTranslation_snd_tags (generateCacheKey input source target) now hcache
  unfold handleTranslateText
  cases hl : (getCachedTranslation (generateCacheKey input source target) now st.cache).1 with
  | none =>
    simp only [handleTranslateCont]
    exact assetsPhase_tags _ _ _ _ _ _ _ _ _ _ _ hhist hsnd hmeta (by intro cd h; cases h)
  | some cd =>
    have hcd3 : cd.tags.length ≤ 3 := getCachedTranslation_fst_tags _ _ hcache hl
    simp only [handleTranslateCont]
    by_cases hau : audioTruthy cd.audioData = true
    · rw [if_pos hau]
      unfold fullHitFinish
      refine ⟨?_, ?_, ?_⟩
      · intro r hr
        rcases onNewTranslation_mem hr with rfl | hmem
        · exact hcd3
        · exact hhist r hmem
      · intro r hr
        have : fullHitRecord input source target requestId now cd = r := Option.some.inj hr
        rw [← this]
        exact hcd3
      · exact hsnd
    · rw [if_neg hau]
      refine assetsPhase_tags _ _ _ _ _ _ _ _ _ _ _ hhist hsnd hmeta ?_
      intro cd' h
      have : cd = cd' := Option.some.inj h
      rw [← this]
      exact hcd3

/-- The oracle of the tags-bound witness: a well-behaved enrichment response
with one tag. -/
def oracle9 : BackendOracle :=
  { streamChunks := ["x"], speechResult := none,
    metaResult := some (EnrichMeta.mk ["A"] "v") }

/-- The empty starting state of the tags-bound witness. -/
def st9 : AppState :=
  { activeRequestId := 0, status := Status.idle, currentResult := none, history := [],
    cache := [] }

/-- Witness for C9 (amended) at concrete inputs. -/
theorem tags_bound_amended_witness :
    (match (handleTranslateText "hi" "en" "zh" 1 10 oracle9 st9).1.currentResult with
      | some r => r.tags.length
      | none => 0) ≤ 3 := by
  obtain ⟨-, h2, -⟩ := tags_bound_amended "hi" "en" "zh" 1 10 oracle9 st9
    (by simp [st9]) (by simp [st9])
    (by
      intro m hm
      have : EnrichMeta.mk ["A"] "v" = m := Option.some.inj hm
      rw [← this]
      decide)
  cases hcur : (handleTranslateText "hi" "en" "zh" 1 10 oracle9 st9).1.currentResult with
  | none => decide
  | some r => exact h2 r hcur

/-- The state of the language-selection component, `InputArea` (part_004):
the typed text, the selected languages, and the flag suppressing
auto-translation during a swap. -/
structure InputAreaState where
  inputText : String
  sourceLang : String
  targetLang : String
  isSwapping : Bool
deriving DecidableEq, Repr

/-- The inverted record built by `handleSwap` (part_004 lines 640-653):
texts swapped, languages taken from the new selection, audio cleared (tags
and the rest deliberately kept). -/
def invertedRecordOf (r : TranslationRecord) (newSource newTarget : String) :
    TranslationRecord :=
  { r with
      originalText := r.translatedText
      translatedText := r.originalText
      sourceLang := newSource
      targetLang := newTarget
      audioData := none }

/-- `handleSwap` (part_004 lines 630-660): swap the selected languages
(`auto` becoming `en` as the new target); when a finished record is on
screen, also set the input text to its translation, mark the swap, show the
inverted record and push it into history via `handleSwapContent`
(TranslationBox.tsx lines 21-25).  The operation makes no backend call. -/
def handleSwap (st : InputAreaState) (currentResult : Option TranslationRecord)
    (history : List TranslationRecord) :
    InputAreaState × Option TranslationRecord × List TranslationRecord × List BackendCall :=
  match currentResult with
  | some r =>
    ({ st with
        isSwapping := true
        inputText := r.translatedText
        sourceLang := st.targetLang
        targetLang := if st.sourceLang = "auto" then "en" else st.sourceLang },
      some (invertedRecordOf r st.targetLang
        (if st.sourceLang = "auto" then "en" else st.sourceLang)),
      onNewTranslation
        (invertedRecordOf r st.targetLang
          (if st.sourceLang = "auto" then "en" else st.sourceLang)) history,
      [])
  | none =>
    ({ st with
        sourceLang := st.targetLang
        targetLang := if st.sourceLang = "auto" then "en" else st.sourceLang },
      none, history, [])

/-- A finished record whose source language is the sentinel 'auto'. -/
def recAuto : TranslationRecord :=
  { id := "1", originalText := "hello", translatedText := "nihao", imagePrompt := none,
    imageUrl := none, audioData := some "AU", tags := [], timestamp := 0,
    sourceLang := "auto", targetLang := "zh" }

/-- C8 counterexample: swapping a record whose source language is 'auto'
(with the matching selection) yields a record whose target language is
'en', not the record's source language 'auto' - the languages are not
simply swapped. -/
theorem handleSwap_counterexample :
    ((handleSwap (InputAreaState.mk "" "auto" "zh" false) (some recAuto) []).2.1.map
      (fun r => r.targetLang)) = some "en" ∧
    recAuto.sourceLang = "auto" ∧
    ("en" : String) ≠ "auto" := by
  exact ⟨by decide, by decide, by decide⟩

/-- C8 (amended): when the current selection matches the record's languages,
`handleSwap` is a pure synchronous transformation yielding a record with
original and translated text swapped, the source language set to the old
target, the target language set to the old source except that a source of
'auto' maps to 'en', and the audio payload cleared; the record is pushed
into history (newest first, capped at 50) and no backend call is made. -/
theorem handleSwap_amended (st : InputAreaState) (r : TranslationRecord)
    (history : List TranslationRecord)
    (hs : r.sourceLang = st.sourceLang) (ht : r.targetLang = st.targetLang) :
    handleSwap st (some r) history =
      ({ st with
          isSwapping := true
          inputText := r.translatedText
          sourceLang := r.targetLang
          targetLang := if r.sourceLang = "auto" then "en" else r.sourceLang },
        some (invertedRecordOf r r.targetLang
          (if r.sourceLang = "auto" then "en" else r.sourceLang)),
        onNewTranslation
          (invertedRecordOf r r.targetLang
            (if r.sourceLang = "auto" then "en" else r.sourceLang)) history,
        []) := by
  rw [hs, ht]
  rfl

/-- The record of the spec's swap example. -/
def recEx : TranslationRecord :=
  { id := "1", originalText := "A", translatedText := "B", imagePrompt := none,
    imageUrl := none, audioData := some "X", tags := [], timestamp := 0,
    sourceLang := "en", targetLang := "zh" }

/-- Witness for C8 (amended) at the spec's example: {A, B, en, zh, audio X}
inverts to {B, A, zh, en, no audio}, is pushed into history, and the
backend-call list is empty. -/
theorem handleSwap_amended_witness :
    handleSwap (InputAreaState.mk "" "en" "zh" false) (some recEx) [] =
      (InputAreaState.mk "B" "zh" "en" true,
        some { recEx with
            originalText := "B"
            translatedText := "A"
            sourceLang := "zh"
            targetLang := "en"
            audioData := none },
        [{ recEx with
            originalText := "B"
            translatedText := "A"
            sourceLang := "zh"
            targetLang := "en"
            audioData := none }],
        []) := by
  have h := handleSwap_amended (InputAreaState.mk "" "en" "zh" false) recEx [] rfl rfl
  rw [h]
  decide

end GamerLingo
